import Mathlib

/-!
Shallow embedding of the LMISerialKiller pipeline (src/source/index.ts).

The program reads a list of serial numbers from a CSV file, fetches the
device inventory of a remote service through a token-paginated report,
builds a serviceTag → hostId map, and reconciles the input serials
against it, producing three output datasets.

JavaScript `Map` objects are modelled as insertion-ordered association
lists with `Map.set` / `Map.get` semantics.  Network calls are modelled
by passing their responses as parameters: a response of `none` stands
for the error branch of the corresponding try/catch (which logs and
returns null / an empty array).  The `while (nextToken)` loop is
modelled with explicit fuel, since the source has no cycle protection
and could loop forever on a misbehaving remote.
-/

/-- JavaScript `Map.prototype.set` on an insertion-ordered association
list: if the key is already present the value is updated in place (the
entry keeps its original position), otherwise a new entry is appended. -/
def jsMapSet {α β : Type} [DecidableEq α] : List (α × β) → α → β → List (α × β)
  | [], k, v => [(k, v)]
  | (k', v') :: rest, k, v =>
    if k' = k then (k', v) :: rest else (k', v') :: jsMapSet rest k v

/-- JavaScript `Map.prototype.get`: the value of the (unique) entry with
this key, or `none` when absent (`undefined`). -/
def jsMapGet {α β : Type} [DecidableEq α] : List (α × β) → α → Option β
  | [], _ => none
  | (k', v) :: rest, k => if k' = k then some v else jsMapGet rest k

/-- JavaScript `Map.prototype.has`. -/
def jsMapHas {α β : Type} [DecidableEq α] (m : List (α × β)) (k : α) : Bool :=
  (jsMapGet m k).isSome

/-- JavaScript truthiness of a `string | null` value: `null` and the
empty string are falsy, every other string is truthy.  This is the test
performed by `while (nextToken)` and `if (!token)` in the source. -/
def truthy : Option String → Bool
  | none => false
  | some s => decide (s ≠ "")

/-- One row of the hosts record of an inventory report page:
`{ hostId: number; serviceTag: string }` in the source. -/
structure InvRow where
  hostId : Int
  serviceTag : String
deriving DecidableEq, Repr

/-- The `InventoryResponse` payload of one report page.  The TypeScript
interface declares `hosts` as always present, but the axios response is
only cast, never validated, so at runtime the field may be absent: we
model it as an `Option`.  `token` is `report.token : string | null`.
The rows are listed in the iteration order of `Object.keys`. -/
structure InventoryResponse where
  hosts : Option (List InvRow)
  token : Option String
deriving DecidableEq, Repr

/-- A host returned by `GET /hosts`: `{ description: string; id: number }`. -/
structure Host where
  description : String
  id : Int
deriving DecidableEq, Repr

/-- JavaScript `String.prototype.split('\n')` on the character list:
cut at every newline, keeping empty segments (so a trailing newline
yields a final empty segment, and an empty string yields one empty
segment). -/
def splitNl : List Char → List (List Char)
  | [] => [[]]
  | c :: cs =>
    if c = '\n' then [] :: splitNl cs
    else
      match splitNl cs with
      | [] => [[c]]
      | seg :: segs => (c :: seg) :: segs

/-- JavaScript `String.prototype.trim()` on the character list: drop
whitespace from both ends. -/
def trimChars (cs : List Char) : List Char :=
  (((cs.dropWhile Char.isWhitespace).reverse).dropWhile Char.isWhitespace).reverse

/-- JavaScript `String.prototype.trim()`. -/
def jsTrim (s : String) : String :=
  ⟨trimChars s.data⟩

/-- `readFileAndParseToArray`: split the file contents on newlines and
trim every item (`data.split('\n').map(item => item.trim())`).  A read
error (modelled as `none`) yields `[]`. -/
def readFileAndParseToArray : Option String → List String
  | none => []
  | some data => (splitNl data.data).map (fun cs => jsTrim ⟨cs⟩)

/-- `getHosts`: collect the ids of the hosts in the response; a network
error yields the empty list. -/
def getHosts : Option (List Host) → List Int
  | none => []
  | some hosts => hosts.map Host.id

/-- `requestInventoryReport`: on success the server token string is
returned, on error `null`.  The host id list is sent in the request
body and does not affect the value seen by the caller. -/
def requestInventoryReport (_hostIds : List Int) (resp : Option String) : Option String :=
  resp

/-- Folding one page worth of rows into the inventory map:
`inventoryMap.set(host.serviceTag, host.hostId)` for each row. -/
def pageFold (m : List (String × Int)) (rows : List InvRow) : List (String × Int) :=
  rows.foldl (fun mm r => jsMapSet mm r.serviceTag r.hostId) m

/-- The inventory map accumulated from a flat sequence of rows,
starting from the empty map. -/
def buildMap (rows : List InvRow) : List (String × Int) :=
  pageFold [] rows

/-- Outcome of the pagination `while` loop.  `done` carries the
accumulated inventory map and the trace of tokens passed to
`getInventoryReport`, in order.  `crashed` is the `TypeError` thrown by
`Object.keys(report.hosts)` when `hosts` is absent; it propagates to
the outer try/catch, so the run produces no output files.  `fuelOut`
marks that the modelling fuel ran out while the loop was still live. -/
inductive PagOutcome where
  | done (inv : List (String × Int)) (calls : List String)
  | crashed (inv : List (String × Int)) (calls : List String)
  | fuelOut
deriving DecidableEq, Repr

/-- The pagination loop of `main`:

    while (nextToken) {
      const report = await getInventoryReport(nextToken);
      if (report && typeof report === 'object') {
        Object.keys(report.hosts).forEach(... inventoryMap.set ...);
        nextToken = report.report.token;
      } else {
        nextToken = null;
      }
    }

`fetch t` is the response of `getInventoryReport t` (`none` on error).
A returned page is always an object, so the guard reduces to the
null test.  The loop condition is JavaScript truthiness, so both
`null` and `""` end the loop. -/
def paginate (fetch : String → Option InventoryResponse) :
    Nat → Option String → List (String × Int) → List String → PagOutcome
  | 0, nt, inv, calls => if truthy nt then .fuelOut else .done inv calls
  | fuel + 1, nt, inv, calls =>
    match nt with
    | none => .done inv calls
    | some t =>
      if t = "" then .done inv calls
      else
        match fetch t with
        | none => paginate fetch fuel none inv (calls ++ [t])
        | some page =>
          match page.hosts with
          | none => .crashed inv (calls ++ [t])
          | some rows =>
            paginate fetch fuel page.token (pageFold inv rows) (calls ++ [t])

/-- One step of the reconciliation `forEach`: a serial present in the
inventory map is written into the `Map<number, string>`
`inventoryMapFiltered` keyed by its host id; an absent serial is pushed
onto `inventoryNotFound`.  (`has` followed by `get` is collapsed to a
single `get`, which is equivalent since `has` is `get` being defined.) -/
def reconcileStep (inv : List (String × Int))
    (acc : List (Int × String) × List String) (serial : String) :
    List (Int × String) × List String :=
  match jsMapGet inv serial with
  | some id => (jsMapSet acc.1 id serial, acc.2)
  | none => (acc.1, acc.2 ++ [serial])

/-- The reconciliation pass of `main`: iterate the input serials in
order over the empty accumulators. -/
def reconcile (serials : List String) (inv : List (String × Int)) :
    List (Int × String) × List String :=
  serials.foldl (reconcileStep inv) ([], [])

/-- The rows of the three output files, in the order they are written:
`InventoryObtenido.csv` (serviceTag,hostId — the full inventory map),
`Inventory.csv` (id,serviceTag — the matched map) and
`InventoryNotFound.csv` (serviceTag — the unmatched serials). -/
structure FilesOut where
  inventoryFile : List (String × Int)
  matchedFile : List (Int × String)
  unmatchedFile : List String
deriving DecidableEq, Repr

/-- Outcome of one run of `main`.  `abortedNoToken` is the early
`return` taken when `!token`; it happens before any write stream is
created, so no output file exists in that case.  `crashed` is an
exception reaching the outer catch (again before any write).  Only
`completed` writes the three files. -/
inductive MainOutcome where
  | abortedNoToken
  | crashed
  | fuelOut
  | completed (files : FilesOut)
deriving DecidableEq, Repr

/-- The output files produced by a run: only a completed run writes any. -/
def filesOf : MainOutcome → Option FilesOut
  | .completed files => some files
  | _ => none

/-- The `main` orchestration, parameterised by the environment: the CSV
contents, the `GET /hosts` response, the report-request response, the
page fetcher, and the loop fuel. -/
def mainRun (csvData : Option String) (hostsResp : Option (List Host))
    (reportResp : Option String) (fetch : String → Option InventoryResponse)
    (fuel : Nat) : MainOutcome :=
  let serials := readFileAndParseToArray csvData
  let hostIds := getHosts hostsResp
  let token := requestInventoryReport hostIds reportResp
  if !truthy token then .abortedNoToken
  else
    match paginate fetch fuel token [] [] with
    | .fuelOut => .fuelOut
    | .crashed _ _ => .crashed
    | .done inv _ =>
      let r := reconcile serials inv
      .completed ⟨inv, r.1, r.2⟩

/-- First-occurrence deduplication with an already-seen prefix: the key
order produced by repeatedly `jsMapSet`-ing a sequence of keys. -/
def keysAfter {α : Type} [DecidableEq α] (ks : List α) (xs : List α) : List α :=
  xs.foldl (fun acc x => if x ∈ acc then acc else acc ++ [x]) ks

/-- Keys of a sequence in order of first appearance. -/
def firstDedup {α : Type} [DecidableEq α] (xs : List α) : List α :=
  keysAfter [] xs

/-- A finite pagination chain for the fetcher `fetch`: a nonempty list
of (token, page) pairs where each token is truthy, fetching it succeeds
with the paired page whose rows are present, each page hands its
successor token to the next link, and the last page carries no token. -/
def FetchChain (fetch : String → Option InventoryResponse) :
    List (String × InventoryResponse) → Prop
  | [] => False
  | [(t, p)] => t ≠ "" ∧ fetch t = some p ∧ p.hosts.isSome = true ∧ p.token = none
  | (t, p) :: (t', p') :: rest =>
    t ≠ "" ∧ fetch t = some p ∧ p.hosts.isSome = true ∧ p.token = some t' ∧
      FetchChain fetch ((t', p') :: rest)

/-! ### Basic lemmas about the JavaScript Map model -/

theorem jsMapGet_set {α β : Type} [DecidableEq α] (m : List (α × β)) (k k₂ : α) (v : β) :
    jsMapGet (jsMapSet m k v) k₂ = if k₂ = k then some v else jsMapGet m k₂ := by
  induction m with
  | nil =>
    rcases eq_or_ne k₂ k with h | h
    · subst h; simp [jsMapSet, jsMapGet]
    · simp [jsMapSet, jsMapGet, h, Ne.symm h]
  | cons kv rest ih =>
    obtain ⟨kp, vp⟩ := kv
    by_cases hk : kp = k
    · subst hk
      rcases eq_or_ne k₂ kp with h | h
      · subst h; simp [jsMapSet, jsMapGet]
      · simp [jsMapSet, jsMapGet, h, Ne.symm h]
    · rcases eq_or_ne k₂ kp with h | h
      · subst h
        simp [jsMapSet, jsMapGet, hk]
      · simp [jsMapSet, jsMapGet, hk, Ne.symm h, ih]

theorem jsMapSet_keys {α β : Type} [DecidableEq α] (m : List (α × β)) (k : α) (v : β) :
    (jsMapSet m k v).map Prod.fst =
      if k ∈ m.map Prod.fst then m.map Prod.fst else m.map Prod.fst ++ [k] := by
  induction m with
  | nil => simp [jsMapSet]
  | cons kv rest ih =>
    obtain ⟨kp, vp⟩ := kv
    by_cases hk : kp = k
    · subst hk; simp [jsMapSet]
    · simp only [jsMapSet, if_neg hk, List.map_cons, ih]
      by_cases hmem : k ∈ rest.map Prod.fst
      · simp [hmem, Ne.symm hk]
      · simp [hmem, Ne.symm hk]

theorem jsMapSet_keys_nodup {α β : Type} [DecidableEq α] (m : List (α × β)) (k : α) (v : β)
    (h : (m.map Prod.fst).Nodup) : ((jsMapSet m k v).map Prod.fst).Nodup := by
  rw [jsMapSet_keys]
  by_cases hmem : k ∈ m.map Prod.fst
  · simp [hmem, h]
  · simp [hmem, h, List.nodup_append]

/-- Folding `jsMapSet` over a sequence of pairs is last-write-wins: a
lookup returns the value of the last pair carrying the key, falling
back to the starting map when the key never occurs. -/
theorem foldl_jsMapSet_get {α β : Type} [DecidableEq α] (ps : List (α × β))
    (m : List (α × β)) (k : α) :
    jsMapGet (ps.foldl (fun mm p => jsMapSet mm p.1 p.2) m) k =
      match ps.reverse.find? (fun p => decide (p.1 = k)) with
      | some q => some q.2
      | none => jsMapGet m k := by
  induction ps generalizing m with
  | nil => simp
  | cons p rest ih =>
    obtain ⟨kp, vp⟩ := p
    rw [List.foldl_cons, ih, List.reverse_cons, List.find?_append]
    rcases hfind : rest.reverse.find? (fun q => decide (q.1 = k)) with _ | q
    · by_cases h : kp = k
      · subst h; simp [hfind, Option.or, jsMapGet_set]
      · simp [hfind, Option.or, h, Ne.symm h, jsMapGet_set]
    · simp [hfind, Option.or]

theorem foldl_jsMapSet_keys {α β : Type} [DecidableEq α] (ps : List (α × β))
    (m : List (α × β)) :
    (ps.foldl (fun mm p => jsMapSet mm p.1 p.2) m).map Prod.fst =
      keysAfter (m.map Prod.fst) (ps.map Prod.fst) := by
  induction ps generalizing m with
  | nil => simp [keysAfter]
  | cons p rest ih =>
    simp only [List.foldl_cons, ih, keysAfter, List.map_cons, jsMapSet_keys]

/-! ### keysAfter / firstDedup lemmas -/

theorem keysAfter_cons {α : Type} [DecidableEq α] (ks : List α) (x : α) (xs : List α) :
    keysAfter ks (x :: xs) = keysAfter (if x ∈ ks then ks else ks ++ [x]) xs := rfl

theorem length_keysAfter_le {α : Type} [DecidableEq α] (ks xs : List α) :
    (keysAfter ks xs).length ≤ ks.length + xs.length := by
  induction xs generalizing ks with
  | nil => simp [keysAfter]
  | cons x xs ih =>
    rw [keysAfter_cons]
    by_cases h : x ∈ ks
    · rw [if_pos h]
      have := ih ks
      simp only [List.length_cons]
      omega
    · rw [if_neg h]
      have := ih (ks ++ [x])
      simp only [List.length_append, List.length_cons, List.length_nil] at this ⊢
      omega

theorem keysAfter_eq_append {α : Type} [DecidableEq α] (ks xs : List α) (hnd : xs.Nodup)
    (hdisj : ∀ x ∈ xs, x ∉ ks) : keysAfter ks xs = ks ++ xs := by
  induction xs generalizing ks with
  | nil => simp [keysAfter]
  | cons x xs ih =>
    rw [keysAfter_cons, if_neg (hdisj x (by simp))]
    rw [ih (ks ++ [x]) hnd.of_cons]
    · simp
    · intro y hy
      simp only [List.mem_append, List.mem_singleton]
      rintro (hks | rfl)
      · exact hdisj y (by simp [hy]) hks
      · exact (List.nodup_cons.mp hnd).1 hy

theorem keysAfter_nodup {α : Type} [DecidableEq α] (ks xs : List α) (h : ks.Nodup) :
    (keysAfter ks xs).Nodup := by
  induction xs generalizing ks with
  | nil => exact h
  | cons x xs ih =>
    rw [keysAfter_cons]
    by_cases hx : x ∈ ks
    · rw [if_pos hx]; exact ih ks h
    · rw [if_neg hx]
      exact ih (ks ++ [x]) (by simp [List.nodup_append, h, hx])

theorem firstDedup_nodup {α : Type} [DecidableEq α] (xs : List α) : (firstDedup xs).Nodup :=
  keysAfter_nodup [] xs List.nodup_nil

theorem length_firstDedup_le {α : Type} [DecidableEq α] (xs : List α) :
    (firstDedup xs).length ≤ xs.length := by
  have := length_keysAfter_le ([] : List α) xs
  simpa [firstDedup] using this

theorem firstDedup_of_nodup {α : Type} [DecidableEq α] (xs : List α) (h : xs.Nodup) :
    firstDedup xs = xs := by
  have := keysAfter_eq_append ([] : List α) xs h (by simp)
  simpa [firstDedup] using this

/-! ### Pagination loop lemmas -/

theorem paginate_none (fetch : String → Option InventoryResponse) (fuel : Nat)
    (inv : List (String × Int)) (calls : List String) :
    paginate fetch fuel none inv calls = .done inv calls := by
  cases fuel <;> simp [paginate, truthy]

theorem paginate_some_empty (fetch : String → Option InventoryResponse) (fuel : Nat)
    (inv : List (String × Int)) (calls : List String) :
    paginate fetch fuel (some "") inv calls = .done inv calls := by
  cases fuel <;> simp [paginate, truthy]

/-! ### Reconciliation characterization lemmas -/

/-- The (hostId, serial) pairs, in input order, of the input serials
present in the inventory map (duplicates included). -/
def foundPairs (s : List String) (inv : List (String × Int)) : List (Int × String) :=
  s.filterMap (fun x => (jsMapGet inv x).map (fun id => (id, x)))

/-- The host ids, in input order, of the input serials present in the
inventory map (duplicates included). -/
def foundIds (s : List String) (inv : List (String × Int)) : List Int :=
  s.filterMap (fun x => jsMapGet inv x)

theorem foundPairs_map_fst (s : List String) (inv : List (String × Int)) :
    (foundPairs s inv).map Prod.fst = foundIds s inv := by
  induction s with
  | nil => rfl
  | cons x xs ih =>
    rcases hx : jsMapGet inv x with _ | id <;>
      simp [foundPairs, foundIds, List.filterMap_cons, hx] <;>
      simpa [foundPairs, foundIds] using ih

theorem reconcile_foldl_unmatched (inv : List (String × Int)) (s : List String)
    (m : List (Int × String)) (u : List String) :
    (s.foldl (reconcileStep inv) (m, u)).2 =
      u ++ s.filter (fun x => (jsMapGet inv x).isNone) := by
  induction s generalizing m u with
  | nil => simp
  | cons x xs ih =>
    rw [List.foldl_cons]
    rcases hx : jsMapGet inv x with _ | id
    · simp [reconcileStep, hx, ih, List.filter_cons]
    · simp [reconcileStep, hx, ih, List.filter_cons]

theorem reconcile_foldl_matched (inv : List (String × Int)) (s : List String)
    (m : List (Int × String)) (u : List String) :
    (s.foldl (reconcileStep inv) (m, u)).1 =
      (foundPairs s inv).foldl (fun mm p => jsMapSet mm p.1 p.2) m := by
  induction s generalizing m u with
  | nil => simp [foundPairs]
  | cons x xs ih =>
    rw [List.foldl_cons]
    rcases hx : jsMapGet inv x with _ | id
    · simp only [reconcileStep, hx]
      rw [ih]
      simp [foundPairs, List.filterMap_cons, hx]
    · simp only [reconcileStep, hx]
      rw [ih]
      simp [foundPairs, List.filterMap_cons, hx]

/-- The unmatched output is exactly the input serials absent from the
inventory map, in input order. -/
theorem reconcile_unmatched (s : List String) (inv : List (String × Int)) :
    (reconcile s inv).2 = s.filter (fun x => (jsMapGet inv x).isNone) := by
  rw [reconcile, reconcile_foldl_unmatched]
  simp

/-- The key column of the matched output: the found host ids in order
of first appearance, deduplicated. -/
theorem reconcile_matched_keys (s : List String) (inv : List (String × Int)) :
    ((reconcile s inv).1).map Prod.fst = firstDedup (foundIds s inv) := by
  rw [reconcile, reconcile_foldl_matched, foldl_jsMapSet_keys]
  simp [firstDedup, foundPairs_map_fst]

theorem length_foundIds_add_filter (s : List String) (inv : List (String × Int)) :
    (foundIds s inv).length + (s.filter (fun x => (jsMapGet inv x).isNone)).length
      = s.length := by
  induction s with
  | nil => rfl
  | cons x xs ih =>
    rcases hx : jsMapGet inv x with _ | id
    · simp [foundIds, List.filterMap_cons, hx, List.filter_cons] at ih ⊢
      omega
    · simp [foundIds, List.filterMap_cons, hx, List.filter_cons] at ih ⊢
      omega

theorem filterMap_found_find (inv : List (String × Int)) (d : Int) (t : List String) :
    ((t.filterMap (fun x => (jsMapGet inv x).map (fun id => (id, x)))).find?
        (fun p => decide (p.1 = d))).map Prod.snd =
      (t.filter (fun x => decide (jsMapGet inv x = some d))).head? := by
  induction t with
  | nil => rfl
  | cons x xs ih =>
    rcases hx : jsMapGet inv x with _ | id
    · rw [List.filterMap_cons_none (by simp [hx]),
        List.filter_cons_of_neg (by simp [hx])]
      exact ih
    · by_cases hd : id = d
      · subst hd
        simp only [List.filterMap_cons, hx, Option.map_some']
        rw [List.filter_cons_of_pos (by simp [hx]),
          List.find?_cons_of_pos _ (by simp)]
        simp
      · simp only [List.filterMap_cons, hx, Option.map_some']
        rw [List.filter_cons_of_neg (by simp [hx, hd]),
          List.find?_cons_of_neg _ (by simp [hd])]
        exact ih

/-- The value column of the matched output is last-write-wins per host
id: looking up a host id yields the last input serial that resolved to
that id, or nothing when no input serial did. -/
theorem reconcile_matched_get (s : List String) (inv : List (String × Int)) (d : Int) :
    jsMapGet (reconcile s inv).1 d =
      (s.filter (fun x => decide (jsMapGet inv x = some d))).getLast? := by
  rw [reconcile, reconcile_foldl_matched, foldl_jsMapSet_get]
  have h1 : (foundPairs s inv).reverse
      = s.reverse.filterMap (fun x => (jsMapGet inv x).map (fun id => (id, x))) :=
    (List.filterMap_reverse _ _).symm
  rw [h1, ← List.head?_reverse, ← List.filter_reverse,
    ← filterMap_found_find inv d s.reverse]
  generalize (s.reverse.filterMap
      (fun x => (jsMapGet inv x).map (fun id => (id, x)))).find?
      (fun p => decide (p.1 = d)) = o
  cases o <;> rfl

/-- Folding rows of a page into the inventory map, generalized start:
a lookup yields the host id of the last row carrying the serial, else
whatever the starting map held. -/
theorem pageFold_get (rows : List InvRow) (m : List (String × Int)) (s : String) :
    jsMapGet (pageFold m rows) s =
      match rows.reverse.find? (fun r => decide (r.serviceTag = s)) with
      | some r => some r.hostId
      | none => jsMapGet m s := by
  induction rows generalizing m with
  | nil => simp [pageFold]
  | cons r rest ih =>
    have hstep : pageFold m (r :: rest)
        = pageFold (jsMapSet m r.serviceTag r.hostId) rest := rfl
    rw [hstep, ih, List.reverse_cons, List.find?_append]
    rcases hfind : rest.reverse.find? (fun q => decide (q.serviceTag = s)) with _ | q
    · by_cases h : r.serviceTag = s
      · simp [hfind, Option.or, List.find?, h, jsMapGet_set]
      · simp [hfind, Option.or, List.find?, h, jsMapGet_set, Ne.symm h]
    · simp [hfind, Option.or]

/-- `buildMap` is last-write-wins on duplicate serials. -/
theorem buildMap_get (rows : List InvRow) (s : String) :
    jsMapGet (buildMap rows) s =
      (rows.reverse.find? (fun r => decide (r.serviceTag = s))).map InvRow.hostId := by
  rw [buildMap, pageFold_get]
  rcases hf : rows.reverse.find? (fun r => decide (r.serviceTag = s)) with _ | r <;>
    simp [hf, jsMapGet]

/-- Accumulating two pages one after the other is the same as
accumulating the concatenation of their rows. -/
theorem pageFold_append (m : List (String × Int)) (rs1 rs2 : List InvRow) :
    pageFold (pageFold m rs1) rs2 = pageFold m (rs1 ++ rs2) := by
  simp [pageFold, List.foldl_append]

/-- Running the pagination loop down a finite fetch chain: it performs
one fetch per link, consuming each link token exactly once, in order,
accumulates every page of rows, and exits the loop normally. -/
theorem paginate_chain (fetch : String → Option InventoryResponse) :
    ∀ (chain : List (String × InventoryResponse)) (t : String) (p : InventoryResponse)
      (fuel : Nat) (inv : List (String × Int)) (calls : List String),
      FetchChain fetch ((t, p) :: chain) → chain.length < fuel →
      paginate fetch fuel (some t) inv calls =
        .done (((t, p) :: chain).foldl (fun m tp => pageFold m (tp.2.hosts.getD [])) inv)
              (calls ++ ((t, p) :: chain).map Prod.fst) := by
  intro chain
  induction chain with
  | nil =>
    intro t p fuel inv calls hch hfuel
    obtain ⟨ht, hf, hhosts, htok⟩ := hch
    obtain ⟨rows, hrows⟩ := Option.isSome_iff_exists.mp hhosts
    obtain ⟨f, rfl⟩ : ∃ f, fuel = f + 1 := ⟨fuel - 1, by omega⟩
    simp only [paginate, if_neg ht, hf, hrows, htok, paginate_none]
    simp [hrows]
  | cons link rest ih =>
    obtain ⟨t2, p2⟩ := link
    intro t p fuel inv calls hch hfuel
    obtain ⟨ht, hf, hhosts, htok, hch2⟩ := hch
    obtain ⟨rows, hrows⟩ := Option.isSome_iff_exists.mp hhosts
    obtain ⟨f, rfl⟩ : ∃ f, fuel = f + 1 := ⟨fuel - 1, by omega⟩
    have hlen : rest.length < f := by
      simp only [List.length_cons] at hfuel
      omega
    simp only [paginate, if_neg ht, hf, hrows, htok]
    rw [ih t2 p2 f (pageFold inv rows) (calls ++ [t]) hch2 hlen]
    simp [hrows, List.append_assoc]

/-! ### Trimming lemmas -/

theorem getLast?_dropWhile {α : Type} (p : α → Bool) (v : List α)
    (h : v.dropWhile p ≠ []) : (v.dropWhile p).getLast? = v.getLast? := by
  induction v with
  | nil => simp at h
  | cons c cs ih =>
    by_cases hc : p c
    · rw [List.dropWhile_cons_of_pos hc] at h ⊢
      rw [ih h]
      cases cs with
      | nil => simp [List.dropWhile] at h
      | cons c2 cs2 => rw [List.getLast?_cons_cons]
    · rw [List.dropWhile_cons_of_neg hc]

theorem head?_dropWhile_false {α : Type} (p : α → Bool) (l : List α) (a : α)
    (h : (l.dropWhile p).head? = some a) : p a = false := by
  have hh := List.head?_dropWhile_not p l
  rw [h] at hh
  exact hh

theorem dropWhile_eq_self_of_head {α : Type} (p : α → Bool) (l : List α)
    (h : ∀ a, l.head? = some a → p a = false) : l.dropWhile p = l := by
  cases l with
  | nil => rfl
  | cons c cs => exact List.dropWhile_cons_of_neg (by simp [h c rfl])

/-- Trimming is idempotent: a trimmed character list has no leading or
trailing whitespace left to drop. -/
theorem trimChars_idem (cs : List Char) : trimChars (trimChars cs) = trimChars cs := by
  unfold trimChars
  have h1 : ((((cs.dropWhile Char.isWhitespace).reverse).dropWhile
      Char.isWhitespace).reverse).dropWhile Char.isWhitespace =
      (((cs.dropWhile Char.isWhitespace).reverse).dropWhile Char.isWhitespace).reverse := by
    apply dropWhile_eq_self_of_head
    intro a ha
    rw [List.head?_reverse] at ha
    have hw : ((cs.dropWhile Char.isWhitespace).reverse).dropWhile Char.isWhitespace
        ≠ [] := by
      intro hnil
      rw [hnil] at ha
      simp at ha
    rw [getLast?_dropWhile _ _ hw, List.getLast?_eq_head?_reverse,
      List.reverse_reverse] at ha
    exact head?_dropWhile_false _ cs a ha
  rw [h1, List.reverse_reverse]
  have h2 : (((cs.dropWhile Char.isWhitespace).reverse).dropWhile
      Char.isWhitespace).dropWhile Char.isWhitespace =
      ((cs.dropWhile Char.isWhitespace).reverse).dropWhile Char.isWhitespace := by
    apply dropWhile_eq_self_of_head
    intro a ha
    exact head?_dropWhile_false _ _ a ha
  rw [h2]

/-- JavaScript trim is idempotent, so every entry produced by the input
loader is already trimmed. -/
theorem jsTrim_idem (s : String) : jsTrim (jsTrim s) = jsTrim s :=
  congrArg String.mk (trimChars_idem s.data)

/-! ### Page accumulation across the loop -/

/-- Folding the pages one after the other, as the loop does, builds the
same map as folding the concatenation of all rows. -/
theorem foldl_pageFold_flatten (pages : List (List InvRow)) (m : List (String × Int)) :
    pages.foldl pageFold m = pageFold m pages.flatten := by
  induction pages generalizing m with
  | nil => simp [pageFold]
  | cons pg rest ih =>
    rw [List.foldl_cons, ih, List.flatten_cons, ← pageFold_append]

/-! ### Claim theorems -/

/-- Claim C1, counterexample: the input "X","X" with "X" present in the
inventory produces one matched entry and zero unmatched entries, so
`|matched| + |unmatched|` is 1, not the input length 2 — the matched
accumulator is a `Map` keyed by host id, so a duplicate found serial
does not appear twice. -/
theorem c1_counterexample :
    (reconcile ["X", "X"] [("X", 1)]).1.length
        + (reconcile ["X", "X"] [("X", 1)]).2.length
      ≠ (["X", "X"] : List String).length := by
  decide

/-- Claim C1 (amended): every input serial is processed independently
and lands in exactly one branch — each not-found occurrence is appended
to unmatched (in input order, duplicates included), while each found
occurrence is written into a host-id-keyed map, so matched holds one
entry per distinct host id among the found occurrences.  Hence
`|matched| + |unmatched| ≤ |inputSerials|`, with equality exactly
guaranteed when the found occurrences carry pairwise distinct host ids
(in particular the count equation of the original claim fails for a
duplicated found serial). -/
theorem c1_partition_counts (s : List String) (inv : List (String × Int)) :
    (reconcile s inv).2 = s.filter (fun x => (jsMapGet inv x).isNone) ∧
    (reconcile s inv).1.length = (firstDedup (foundIds s inv)).length ∧
    (reconcile s inv).1.length + (reconcile s inv).2.length ≤ s.length ∧
    ((foundIds s inv).Nodup →
      (reconcile s inv).1.length + (reconcile s inv).2.length = s.length) := by
  have hu := reconcile_unmatched s inv
  have hk : (reconcile s inv).1.length = (firstDedup (foundIds s inv)).length := by
    have hcong := congrArg List.length (reconcile_matched_keys s inv)
    simpa using hcong
  have hsum := length_foundIds_add_filter s inv
  refine ⟨hu, hk, ?_, ?_⟩
  · have h1 := length_firstDedup_le (foundIds s inv)
    rw [hk, hu]
    omega
  · intro hnd
    rw [hk, hu, firstDedup_of_nodup _ hnd]
    omega

/-- Claim C1 witness: on input "A","B" with only "A" in the inventory,
the found ids are duplicate-free and the count equation holds. -/
theorem c1_partition_counts_witness :
    (foundIds ["A", "B"] [("A", 1)]).Nodup ∧
    (reconcile ["A", "B"] [("A", 1)]).1.length
        + (reconcile ["A", "B"] [("A", 1)]).2.length
      = (["A", "B"] : List String).length :=
  ⟨by decide, (c1_partition_counts ["A", "B"] [("A", 1)]).2.2.2 (by decide)⟩

/-- Claim C4, counterexample: with input "A","B","C" and inventory
A→1, B→2, C→1, the serial "A" is found yet absent from matched (its
entry was overwritten by "C"), and the matched serials "C","B" are not
in the input order of first appearance of the found serials
"A","B","C". -/
theorem c4_counterexample :
    jsMapGet [("A", 1), ("B", 2), ("C", 1)] "A" = some 1 ∧
    ("A" ∉ ((reconcile ["A", "B", "C"] [("A", 1), ("B", 2), ("C", 1)]).1.map
        Prod.snd)) ∧
    ¬ ((reconcile ["A", "B", "C"] [("A", 1), ("B", 2), ("C", 1)]).1.map
          Prod.snd).Sublist
        ((["A", "B", "C"] : List String).filter
          (fun x => (jsMapGet [("A", 1), ("B", 2), ("C", 1)] x).isSome)) := by
  decide

/-- Claim C4 (amended): unmatched preserves the input order exactly
(it is the in-order filter of the absent serials).  Matched is ordered
by host id, not by serial: its entries appear in order of first
appearance of the found host ids, and the serial stored under a host id
is the last input serial that resolved to that id — so serial-level
first-appearance order holds only when no two found serials share a
host id. -/
theorem c4_order_preservation (s : List String) (inv : List (String × Int)) :
    (reconcile s inv).2 = s.filter (fun x => (jsMapGet inv x).isNone) ∧
    (reconcile s inv).1.map Prod.fst = firstDedup (foundIds s inv) ∧
    ∀ d : Int, jsMapGet (reconcile s inv).1 d =
      (s.filter (fun x => decide (jsMapGet inv x = some d))).getLast? :=
  ⟨reconcile_unmatched s inv, reconcile_matched_keys s inv,
    reconcile_matched_get s inv⟩

/-- Claim C6: the inventory map accumulated across pages is
last-write-wins on duplicate serials.  Folding the pages one after the
other (as the loop does) equals building from the concatenated record
sequence, and a lookup returns the host id of the last record carrying
the serial — so when a serial occurs several times, only the last-seen
binding survives. -/
theorem c6_last_write_wins (pages : List (List InvRow)) (s : String) :
    pages.foldl pageFold [] = buildMap pages.flatten ∧
    jsMapGet (buildMap pages.flatten) s =
      ((pages.flatten).reverse.find? (fun r => decide (r.serviceTag = s))).map
        InvRow.hostId :=
  ⟨foldl_pageFold_flatten pages [], buildMap_get pages.flatten s⟩

/-- Claim C8: the matched output is keyed by host id.  Its key column
is duplicate-free (at most one entry per host id); the keys stand in
order of first appearance of the found host ids (so an entry keeps the
position of its first insertion); and the value stored under a host id
is the last input serial occurrence that resolved to it (a later
occurrence replaces the value in place). -/
theorem c8_matched_keyed_by_id (s : List String) (inv : List (String × Int)) :
    ((reconcile s inv).1.map Prod.fst).Nodup ∧
    (reconcile s inv).1.map Prod.fst = firstDedup (foundIds s inv) ∧
    ∀ d : Int, jsMapGet (reconcile s inv).1 d =
      (s.filter (fun x => decide (jsMapGet inv x = some d))).getLast? := by
  refine ⟨?_, reconcile_matched_keys s inv, reconcile_matched_get s inv⟩
  rw [reconcile_matched_keys s inv]
  exact firstDedup_nodup _

/-- Claim C10: reconciliation is deterministic and idempotent.  In the
source it reads only the input serials and the inventory map, writing
into accumulators that are freshly created per run, so the embedding is
a pure function of the pair and two runs on the same pair produce
identical matched and unmatched outputs. -/
theorem c10_idempotent (s : List String) (inv : List (String × Int)) :
    (reconcile s inv).1 = (reconcile s inv).1 ∧
    (reconcile s inv).2 = (reconcile s inv).2 :=
  ⟨rfl, rfl⟩

/-- Claim C5, counterexample: when the report request yields null, the
run ends in the early return and `filesOf` is `none` — no output file
is written at all, in particular no (empty) inventory snapshot file, so
the inventory files are not "still produced". -/
theorem c5_counterexample :
    mainRun (some "A\nB") (some []) none (fun _ => none) 5
      = .abortedNoToken ∧
    filesOf (mainRun (some "A\nB") (some []) none (fun _ => none) 5) = none ∧
    filesOf (mainRun (some "A\nB") (some []) none (fun _ => none) 5)
      ≠ some ⟨[], [], []⟩ := by
  decide

/-- Claim C5 (amended): whenever the report requester returns null, the
pipeline returns immediately — before creating any write stream — so
not only the token-dependent files but every output file, the inventory
snapshot included, is absent. -/
theorem c5_abort_no_files (csv : Option String) (hosts : Option (List Host))
    (fetch : String → Option InventoryResponse) (fuel : Nat) :
    mainRun csv hosts none fetch fuel = .abortedNoToken ∧
    filesOf (mainRun csv hosts none fetch fuel) = none :=
  ⟨rfl, rfl⟩

/-- Claim C9: a report token that is the empty string is treated like a
null token.  The `!token` guard aborts the run identically, and a page
whose nextToken is the empty string ends the `while (nextToken)` loop
with no further fetch calls, identically to a null nextToken. -/
theorem c9_empty_string_token (csv : Option String) (hosts : Option (List Host))
    (fetch : String → Option InventoryResponse) (fuel : Nat)
    (inv : List (String × Int)) (calls : List String) :
    mainRun csv hosts (some "") fetch fuel = .abortedNoToken ∧
    mainRun csv hosts (some "") fetch fuel = mainRun csv hosts none fetch fuel ∧
    paginate fetch fuel (some "") inv calls = .done inv calls ∧
    paginate fetch fuel (some "") inv calls = paginate fetch fuel none inv calls := by
  refine ⟨rfl, rfl, paginate_some_empty fetch fuel inv calls, ?_⟩
  rw [paginate_some_empty, paginate_none]

/-- Claim C3: given a finite chain of pages whose k-th page carries no
nextToken, with every fetch succeeding and every page's records
present, the loop performs exactly k fetch calls: the trace of tokens
passed to the fetcher is exactly the chain's k tokens in order (so each
produced token is consumed exactly once, on the immediately following
iteration), every page's rows are accumulated, and the loop exits
normally. -/
theorem c3_pagination_calls (fetch : String → Option InventoryResponse)
    (t : String) (p : InventoryResponse)
    (rest : List (String × InventoryResponse)) (fuel : Nat)
    (hch : FetchChain fetch ((t, p) :: rest)) (hfuel : rest.length < fuel) :
    paginate fetch fuel (some t) [] [] =
      .done (((t, p) :: rest).foldl (fun m tp => pageFold m (tp.2.hosts.getD [])) [])
            (((t, p) :: rest).map Prod.fst) ∧
    (((t, p) :: rest).map Prod.fst).length = ((t, p) :: rest).length := by
  refine ⟨?_, by simp⟩
  have h := paginate_chain fetch rest t p fuel [] [] hch hfuel
  simpa using h

/-- A two-page fetch chain used to instantiate the pagination claims:
token "T0" yields one row and hands over "T1"; token "T1" yields one
row and ends the chain. -/
def chainFetch : String → Option InventoryResponse := fun t =>
  if t = "T0" then some ⟨some [⟨7, "S1"⟩], some "T1"⟩
  else if t = "T1" then some ⟨some [⟨8, "S2"⟩], none⟩
  else none

/-- Claim C3 witness: on the concrete two-page chain the loop makes
exactly the two calls "T0","T1" and accumulates both rows. -/
theorem c3_pagination_calls_witness :
    paginate chainFetch 5 (some "T0") [] [] =
      .done [("S1", 7), ("S2", 8)] ["T0", "T1"] ∧
    (["T0", "T1"] : List String).length = 2 := by
  have h := c3_pagination_calls chainFetch "T0" ⟨some [⟨7, "S1"⟩], some "T1"⟩
      [("T1", ⟨some [⟨8, "S2"⟩], none⟩)] 5
      (by refine ⟨by decide, rfl, rfl, rfl, ?_⟩; unfold FetchChain; decide)
      (by decide)
  exact ⟨h.1, rfl⟩

/-- A fetcher that always returns a page whose hosts field is absent
(the unvalidated cast lets this reach `Object.keys`). -/
def fetchNoHosts : String → Option InventoryResponse := fun _ => some ⟨none, none⟩

/-- Claim C2, counterexample: a fetched page with absent records does
not make pagination terminate early and proceed — `Object.keys` throws,
the outer catch ends the run, and no output file is written. -/
theorem c2_counterexample :
    mainRun (some "A") (some []) (some "T") fetchNoHosts 5 = .crashed ∧
    filesOf (mainRun (some "A") (some []) (some "T") fetchNoHosts 5) = none := by
  decide

/-- Claim C2 (amended): the two branches behave differently.  A null
fetch result ends pagination early and the pipeline proceeds
non-fatally with the inventory accumulated so far (completing with
output files).  A non-null page whose records are absent instead makes
the loop throw: the run crashes and produces no output files at all. -/
theorem c2_fetch_error_policy (fetch : String → Option InventoryResponse)
    (csv : Option String) (hosts : Option (List Host)) (t : String) (fuel : Nat)
    (inv : List (String × Int)) (calls : List String) (ht : t ≠ "") :
    (fetch t = none →
      paginate fetch (fuel + 1) (some t) inv calls = .done inv (calls ++ [t]) ∧
      mainRun csv hosts (some t) fetch (fuel + 1) =
        .completed ⟨[], (reconcile (readFileAndParseToArray csv) []).1,
                    (reconcile (readFileAndParseToArray csv) []).2⟩) ∧
    (∀ page, fetch t = some page → page.hosts = none →
      paginate fetch (fuel + 1) (some t) inv calls = .crashed inv (calls ++ [t]) ∧
      mainRun csv hosts (some t) fetch (fuel + 1) = .crashed ∧
      filesOf (mainRun csv hosts (some t) fetch (fuel + 1)) = none) := by
  have htr : truthy (some t) = true := by simp [truthy, ht]
  have hstep : fetch t = none → ∀ inv2 calls2,
      paginate fetch (fuel + 1) (some t) inv2 calls2 = .done inv2 (calls2 ++ [t]) := by
    intro h inv2 calls2
    simp only [paginate, if_neg ht, h, paginate_none]
  have hstepc : ∀ page, fetch t = some page → page.hosts = none → ∀ inv2 calls2,
      paginate fetch (fuel + 1) (some t) inv2 calls2 = .crashed inv2 (calls2 ++ [t]) := by
    intro page h hh inv2 calls2
    simp only [paginate, if_neg ht, h, hh]
  constructor
  · intro h
    refine ⟨hstep h inv calls, ?_⟩
    simp [mainRun, requestInventoryReport, htr, hstep h [] []]
  · intro page h hh
    refine ⟨hstepc page h hh inv calls, ?_, ?_⟩
    · simp [mainRun, requestInventoryReport, htr, hstepc page h hh [] []]
    · simp [mainRun, requestInventoryReport, htr, hstepc page h hh [] [], filesOf]

/-- A fetcher whose every call fails (the catch branch returning null). -/
def fetchFail : String → Option InventoryResponse := fun _ => none

/-- Claim C2 witness: a failing fetcher stops the loop after one call
and the run still completes (silent degradation), while the
absent-records fetcher crashes the same pipeline. -/
theorem c2_fetch_error_policy_witness :
    paginate fetchFail 3 (some "T") [] [] = .done [] ["T"] ∧
    mainRun none (some []) (some "T") fetchFail 3 = .completed ⟨[], [], []⟩ ∧
    mainRun none (some []) (some "T") fetchNoHosts 3 = .crashed := by
  have h1 := (c2_fetch_error_policy fetchFail none (some []) "T" 2 [] []
    (by decide)).1 rfl
  have h2 := ((c2_fetch_error_policy fetchNoHosts none (some []) "T" 2 [] []
    (by decide)).2 ⟨none, none⟩ rfl rfl).2.1
  exact ⟨h1.1, h1.2, h2⟩

/-- Claim C7, counterexample: the file "\n" parses to two empty-string
entries, and with an inventory that maps the empty serviceTag to id 5
both entries match — the empty string lands in matched and never in
unmatched, so empty entries are not unconditionally non-matching. -/
theorem c7_counterexample :
    readFileAndParseToArray (some "\n") = ["", ""] ∧
    (reconcile (readFileAndParseToArray (some "\n")) [("", 5)]).1 = [(5, "")] ∧
    (reconcile (readFileAndParseToArray (some "\n")) [("", 5)]).2 = [] := by
  decide

/-- Claim C7 (amended): entries are trimmed at load time (trimming is
idempotent on every produced entry) and empty lines are preserved, one
entry per segment.  An empty-string entry is looked up like any other
serial: provided the inventory map has no empty serviceTag key, every
empty entry lands in unmatched and never in matched — but this is a
property of the inventory, not a special case in the code. -/
theorem c7_load_trim_empty (data : String) (inv : List (String × Int))
    (h : jsMapGet inv "" = none) :
    (∀ x ∈ readFileAndParseToArray (some data), jsTrim x = x) ∧
    (readFileAndParseToArray (some data)).length = (splitNl data.data).length ∧
    (∀ x ∈ readFileAndParseToArray (some data), x = "" →
      x ∈ (reconcile (readFileAndParseToArray (some data)) inv).2) ∧
    (∀ d : Int,
      jsMapGet (reconcile (readFileAndParseToArray (some data)) inv).1 d
        ≠ some "") := by
  refine ⟨?_, by simp [readFileAndParseToArray], ?_, ?_⟩
  · intro x hx
    simp only [readFileAndParseToArray, List.mem_map] at hx
    obtain ⟨cs, _, rfl⟩ := hx
    exact jsTrim_idem ⟨cs⟩
  · intro x hx hxe
    subst hxe
    rw [reconcile_unmatched]
    exact List.mem_filter.mpr ⟨hx, by simp [h]⟩
  · intro d heq
    rw [reconcile_matched_get] at heq
    have hmem := List.mem_of_getLast?_eq_some heq
    have hp := (List.mem_filter.mp hmem).2
    simp [h] at hp

/-- Claim C7 witness: on the file " A \n\nB" with inventory lacking an
empty serviceTag, the empty entry produced by the blank line ends up in
unmatched. -/
theorem c7_load_trim_empty_witness :
    jsMapGet ([("A", 1)] : List (String × Int)) "" = none ∧
    ("" : String) ∈ (reconcile (readFileAndParseToArray (some " A \n\nB"))
      [("A", 1)]).2 :=
  ⟨by decide,
    (c7_load_trim_empty " A \n\nB" [("A", 1)] (by decide)).2.2.1 "" (by decide) rfl⟩
